import Mathlib

/-!
Verification of the FASTlib RPC / collective-communication layer (`rpc.h`):
the blocking client call (`Rpc::RpcRequestTransaction`), the generic service
dispatcher (`RemoteObjectBackend`), and the tree-structured reduction
(`ReduceChannel::ReduceTransaction`).

The C++ transactions are shallowly embedded as pure Lean state machines:
mutation becomes explicit state passing, side effects (messages sent,
channel unregistration, condition signalling, `delete this`) become
effect-log fields or event traces, and the `FATAL` abort paths become a
`fatal` result constructor carrying the diagnostic data and the state at
the moment of abort.
-/

namespace RpcVerify

/-- The read-only per-process view of the spanning-tree topology
(`rpc::is_root()`, `rpc::parent()`, `rpc::n_children()`, `rpc::child(i)`).
`child i` is `children.getD i 0` and `n_children` is `children.length`. -/
structure Topology where
  isRoot : Bool
  parent : Nat
  children : List Nat

/-- A message as seen by the reduction transaction: the sender peer id
(`message->peer()`), the channel tag (`message->channel()`), and the
payload, modelled post-thaw as a value of the reduction's data type
(serialization is the out-of-scope `ot::` collaborator, so
`ot::PointerThaw<TData>(message->data())` is the identity on this field). -/
structure RMessage (α : Type) where
  peer : Nat
  channel : Nat
  data : α

/-- The state of `ReduceChannel::ReduceTransaction`, plus an explicit effect
log.  `received`, `n_received`, `data` and `channel` embed the C++ fields
`received_`, `n_received_`, `*data_` and `Transaction::channel()`.  `sent`
records every message handed to `Send` (destination peer, frozen payload),
`unregistered` records whether `rpc::Unregister(channel())` has run,
`signaled` whether `cond_.Done()` has run, and `finalizeCount` how many
times the body of the `CheckStatus_` completion branch has executed. -/
structure ReduceState (α : Type) where
  channel : Nat
  received : List (Option (RMessage α))
  n_received : Nat
  data : α
  sent : List (Nat × α)
  unregistered : Bool
  signaled : Bool
  finalizeCount : Nat

/-- The diagnostic carried by the two `FATAL` calls in
`ReduceTransaction::HandleMessage`: the offending peer and the channel. -/
inductive FatalKind where
  | unexpectedPeer (peer : Nat) (channel : Nat)
  | duplicateMessage (peer : Nat) (channel : Nat)

/-- Result of delivering one message: either the post-step state, or a
process abort (`FATAL`) carrying the diagnostic and the state at the moment
of the abort. -/
inductive HMResult (α : Type) where
  | ok (s : ReduceState α)
  | fatal (k : FatalKind) (s : ReduceState α)

/-- `ReduceChannel::ReduceTransaction::CheckStatus_`: when `n_received_`
equals `rpc::n_children()`, thaw each child slot in increasing index order
and fold it into the accumulator via `reductor_->Reduce(*subdata, data_)`
(the incoming value is the left argument of `red`), then, unless this
process is the root, send the combined accumulator to the parent; finally
unregister the channel and signal the waiting caller.  Slots are all
non-null whenever this branch runs (see the invariant theorems); a null
slot would be skipped by the fold. -/
def checkStatus {α : Type} (topo : Topology) (red : α → α → α)
    (s : ReduceState α) : ReduceState α :=
  if s.n_received = topo.children.length then
    let newData := s.received.foldl
      (fun acc m? => match m? with
        | some m => red m.data acc
        | none => acc) s.data
    { s with
      data := newData
      sent := if topo.isRoot then s.sent else s.sent ++ [(topo.parent, newData)]
      unregistered := true
      signaled := true
      finalizeCount := s.finalizeCount + 1 }
  else s

/-- `ReduceChannel::ReduceTransaction::Init`: allocate one null slot per
child, zero the received counter, install the caller's contribution, and
run the completion pre-check (which fires immediately when the topology
reports zero children). -/
def initReduce {α : Type} (topo : Topology) (red : α → α → α)
    (chan : Nat) (v0 : α) : ReduceState α :=
  checkStatus topo red
    { channel := chan
      received := List.replicate topo.children.length none
      n_received := 0
      data := v0
      sent := []
      unregistered := false
      signaled := false
      finalizeCount := 0 }

/-- The child-lookup loop `for (i = n_children; i--;) if (peer == child(i)) break;`
with `n` the remaining fuel: scans indices `n-1, n-2, …, 0` and stops at the
first (i.e. largest) index whose child id equals `peer`; `none` models the
loop falling through to `i = -1`. -/
def findChildIdxAux (children : List Nat) (peer : Nat) : Nat → Option Nat
  | 0 => none
  | n + 1 => if children.getD n 0 = peer then some n else findChildIdxAux children peer n

/-- The full downward child search of `ReduceTransaction::HandleMessage`. -/
def findChildIdx (children : List Nat) (peer : Nat) : Option Nat :=
  findChildIdxAux children peer children.length

/-- `ReduceChannel::ReduceTransaction::HandleMessage`: locate the sender in
the child list (fatal if absent), check the slot is still empty (fatal on a
duplicate), then store the message, bump the counter, and re-run the
completion check.  Both fatal paths fire before any mutation, so they carry
the state unchanged. -/
def handleMessage {α : Type} (topo : Topology) (red : α → α → α)
    (s : ReduceState α) (m : RMessage α) : HMResult α :=
  match findChildIdx topo.children m.peer with
  | none => .fatal (.unexpectedPeer m.peer s.channel) s
  | some i =>
    if (s.received.getD i none).isSome then
      .fatal (.duplicateMessage m.peer s.channel) s
    else
      .ok (checkStatus topo red
        { s with
          received := s.received.set i (some m)
          n_received := s.n_received + 1 })

/-- Deliver a list of messages in order, stopping at the first abort
(the process would be dead from that point on). -/
def runMsgs {α : Type} (topo : Topology) (red : α → α → α)
    (s : ReduceState α) : List (RMessage α) → HMResult α
  | [] => .ok s
  | m :: ms =>
    match handleMessage topo red s m with
    | .ok s' => runMsgs topo red s' ms
    | .fatal k s' => .fatal k s'

/-- One whole reduction on one process: `Init` followed by the delivery of
`msgs` in arrival order. -/
def runReduce {α : Type} (topo : Topology) (red : α → α → α)
    (chan : Nat) (v0 : α) (msgs : List (RMessage α)) : HMResult α :=
  runMsgs topo red (initReduce topo red chan v0) msgs

/-- Project the final accumulator out of a run result (`none` on abort). -/
def HMResult.dataOf {α : Type} : HMResult α → Option α
  | .ok s => some s.data
  | .fatal _ _ => none

/-- Number of non-null slots in the `received_` array. -/
def countSome {α : Type} : List (Option α) → Nat
  | [] => 0
  | some _ :: t => countSome t + 1
  | none :: t => countSome t

/-- The message child number `j` contributes during a reduction whose
child-id list is `ps` and whose child subtree results are `rs` (`d` is a
dummy default for out-of-range indices, never hit on valid input). -/
def mkMsg {α : Type} (ps : List Nat) (rs : List α) (chan : Nat) (d : α)
    (j : Nat) : RMessage α :=
  ⟨ps.getD j 0, chan, rs.getD j d⟩

/-- What a completed reduction transaction looks like on a process whose
combined subtree value is `w`: accumulator `w`, caller signalled, channel
unregistered, completion branch run exactly once, every child counted, and
exactly one upward message (to the parent, carrying `w`) unless this
process is the root, which sends nothing. -/
def FinalState {α : Type} (topo : Topology) (chan : Nat) (w : α)
    (s : ReduceState α) : Prop :=
  s.data = w ∧ s.signaled = true ∧ s.unregistered = true ∧
  s.finalizeCount = 1 ∧ s.n_received = topo.children.length ∧
  s.channel = chan ∧
  s.sent = (if topo.isRoot then [] else [(topo.parent, w)])

/-- A spanning (sub)tree of processes for a whole-tree reduction: the
process id of this node, its own contribution `v`, the order in which its
children's messages arrive (`ord`, a permutation of the child indices), and
its child subtrees in child-index order. -/
inductive RTree (α : Type) where
  | node (pid : Nat) (v : α) (ord : List Nat) (kids : List (RTree α))

/-- Process id at the root of a subtree. -/
def RTree.pid {α : Type} : RTree α → Nat
  | .node p _ _ _ => p

/-- Boolean check that a list of nats has no duplicate. -/
def natNodup : List Nat → Bool
  | [] => true
  | x :: xs => (!(xs.contains x)) && natNodup xs

mutual

/-- Well-formedness of a reduction tree: at every node the child process
ids are pairwise distinct and the arrival order is a permutation of the
child indices. -/
def RTree.validb {α : Type} : RTree α → Bool
  | .node _ _ ord kids =>
    natNodup (kids.map RTree.pid) && ord.isPerm (List.range kids.length)
      && RTree.validbAll kids

/-- `RTree.validb` on every tree in a list. -/
def RTree.validbAll {α : Type} : List (RTree α) → Bool
  | [] => true
  | t :: ts => t.validb && RTree.validbAll ts

end

mutual

/-- Modelled from the spec: the value the specification promises each node
after the reduction — start from the node's own contribution and apply
`acc = combine(childSubtreeValue, acc)` for the children in increasing
child-index order, children's subtree values being fully combined before
being applied to the parent's accumulator (the application convention the
spec demonstrates concretely: accumulator starts at the node's own value,
then `combine(contribution, acc)` per child in order). -/
def specSubtreeValue {α : Type} (red : α → α → α) : RTree α → α
  | .node _ v _ kids => (specKidValues red kids).foldl (fun acc r => red r acc) v

/-- The spec-side subtree values of a list of subtrees, in order. -/
def specKidValues {α : Type} (red : α → α → α) : List (RTree α) → List α
  | [] => []
  | t :: ts => specSubtreeValue red t :: specKidValues red ts

end

mutual

/-- One whole-tree reduction, node by node: run every child subtree, grab
the single upward message each child sent to this node, deliver those
messages in this node's arrival order to this node's embedded
`ReduceTransaction`, and return this node's final transaction state.
`none` signals a fatal abort or an incomplete reduction somewhere below. -/
def runTree {α : Type} (red : α → α → α) (chan : Nat) :
    RTree α → Nat → Bool → Option (ReduceState α)
  | .node myPid v ord kids, parentPid, isRoot =>
    match runKids red chan kids myPid with
    | none => none
    | some msgs =>
      let topo : Topology := ⟨isRoot, parentPid, kids.map RTree.pid⟩
      let arr := ord.filterMap (fun j => msgs.get? j)
      match runMsgs topo red (initReduce topo red chan v) arr with
      | .ok s => if s.signaled then some s else none
      | .fatal _ _ => none

/-- Run a list of child subtrees (children of the process `parentPid`) and
collect, in child-index order, the one message each child sends upward. -/
def runKids {α : Type} (red : α → α → α) (chan : Nat) :
    List (RTree α) → Nat → Option (List (RMessage α))
  | [], _ => some []
  | t :: ts, parentPid =>
    match runTree red chan t parentPid false, runKids red chan ts parentPid with
    | some s, some ms =>
      match s.sent with
      | [(dest, payload)] =>
        if dest = parentPid then some (⟨t.pid, chan, payload⟩ :: ms) else none
      | _ => none
    | _, _ => none

end

/-! ### The request/response (RPC) side -/

/-- A raw message on the RPC side: sender/destination peer, channel tag,
and the frozen payload bytes (`message->data()`, with
`message->data_size() = payload.length`). -/
structure RpcMessage where
  peer : Nat
  channel : Nat
  payload : List Nat

/-- The out-of-scope `ot::` serialization collaborator:
`freeze = ot::PointerFreeze` (with `ot::PointerFrozenSize v =
(freeze v).length`) and `thaw = ot::PointerThaw`. -/
structure Serial (α : Type) where
  freeze : α → List Nat
  thaw : List Nat → α

/-- State of `Rpc::RpcRequestTransaction`: the recorded response
(`response`, null until a reply arrives), whether `Done()` ran, and how
many times `cond.Signal()` ran. -/
structure RpcClientState where
  channel : Nat
  response : Option RpcMessage
  doneCalled : Bool
  signalCount : Nat

/-- The request message `Doit` builds: addressed to `peer`, sized to the
serialized request (`CreateMessage(peer, ot::PointerFrozenSize(request))`),
payload `ot::PointerFreeze(request, message->data())`. -/
def rpcRequestMessage {ρ : Type} (ser : Serial ρ) (peer : Nat) (chan : Nat)
    (req : ρ) : RpcMessage :=
  ⟨peer, chan, ser.freeze req⟩

/-- The sending half of `Rpc::RpcRequestTransaction::Doit`: initialize on
the channel, build and send the request message, record "no response yet".
Returns the post-send transaction state and the message handed to `Send`. -/
def rpcDoitStart {ρ : Type} (ser : Serial ρ) (chan : Nat) (peer : Nat)
    (req : ρ) : RpcClientState × RpcMessage :=
  (⟨chan, none, false, 0⟩, rpcRequestMessage ser peer chan req)

/-- `Rpc::RpcRequestTransaction::HandleMessage`: unconditionally mark the
transaction done, record the incoming message as the response, and signal
the waiting caller.  There is no guard of any kind on the current state. -/
def rpcClientHandleMessage (s : RpcClientState) (m : RpcMessage) :
    RpcClientState :=
  { s with response := some m, doneCalled := true, signalCount := s.signalCount + 1 }

/-- The blocking half of `Doit` together with `Rpc::Request`'s thaw: the
caller loops in `cond.Wait()` while `response == NULL` — modelled as
returning `none` (no return value exists yet) — and once a response is
recorded returns `ot::PointerThaw<ResponseObject>(response_->data())`. -/
def rpcRequestResult {σ : Type} (ser : Serial σ) (s : RpcClientState) :
    Option σ :=
  match s.response with
  | none => none
  | some m => some (ser.thaw m.payload)

/-- The ordered observable events of one
`RemoteObjectTransaction::HandleMessage` dispatch. -/
inductive ServerEvent (ρ σ : Type) where
  | thawedRequest (req : ρ)
  | constructedResponse (resp : σ)
  | invokedHandler (req : ρ) (resp : σ)
  | createdReply (peer : Nat) (size : Nat)
  | freedRequest
  | frozeResponse (payload : List Nat)
  | sentReply (m : RpcMessage)
  | calledDone
  | destroyedSelf

/-- The reply message `RemoteObjectTransaction::HandleMessage` sends:
`CreateMessage(request->peer(), ot::PointerFrozenSize(real_response))` with
the frozen response as payload, where `real_response` is produced by the
user handler run on the thawed request and a default-initialized response
value `resp0`. -/
def remoteObjectReply {ρ σ : Type} (serReq : Serial ρ) (serResp : Serial σ)
    (handler : ρ → σ → σ) (resp0 : σ) (m : RpcMessage) : RpcMessage :=
  ⟨m.peer, m.channel, serResp.freeze (handler (serReq.thaw m.payload) resp0)⟩

/-- The event trace of `RemoteObjectTransaction::HandleMessage`, in source
order: thaw the request, default-construct the response, invoke the user
handler, allocate the reply sized to the frozen response, `delete request`,
freeze the response into the reply, send it, `Done()`, `delete this`. -/
def remoteObjectTrace {ρ σ : Type} (serReq : Serial ρ) (serResp : Serial σ)
    (handler : ρ → σ → σ) (resp0 : σ) (m : RpcMessage) :
    List (ServerEvent ρ σ) :=
  let req := serReq.thaw m.payload
  let resp := handler req resp0
  let payload := serResp.freeze resp
  [ .thawedRequest req,
    .constructedResponse resp0,
    .invokedHandler req resp,
    .createdReply m.peer payload.length,
    .freedRequest,
    .frozeResponse payload,
    .sentReply ⟨m.peer, m.channel, payload⟩,
    .calledDone,
    .destroyedSelf ]

/-- Modelled from the spec: the step order claim C7 asserts for the
dispatcher — thaw, free the request message right after thawing, construct
the default response, invoke the handler, size the reply, freeze, send,
done, destroy.  It differs from `remoteObjectTrace` only in where
`freedRequest` appears. -/
def claimedServerTrace {ρ σ : Type} (serReq : Serial ρ) (serResp : Serial σ)
    (handler : ρ → σ → σ) (resp0 : σ) (m : RpcMessage) :
    List (ServerEvent ρ σ) :=
  let req := serReq.thaw m.payload
  let resp := handler req resp0
  let payload := serResp.freeze resp
  [ .thawedRequest req,
    .freedRequest,
    .constructedResponse resp0,
    .invokedHandler req resp,
    .createdReply m.peer payload.length,
    .frozeResponse payload,
    .sentReply ⟨m.peer, m.channel, payload⟩,
    .calledDone,
    .destroyedSelf ]

/-- Outcome of a `RemoteObjectBackend::HandleRequest` call: either the
`FATAL` trap or an actual response written through the out-parameter. -/
inductive HandlerOutcome (σ : Type) where
  | fatalTrap (diagnostic : String)
  | produced (resp : σ)

/-- The unspecialized `RemoteObjectBackend::HandleRequest`: its entire body
is `FATAL("Virtuality sucks")`. -/
def defaultHandleRequest (ρ σ : Type) : ρ → σ → HandlerOutcome σ :=
  fun _ _ => .fatalTrap "Virtuality sucks"

/-- Whether a `HandleRequest` outcome produced a response. -/
def HandlerOutcome.isProduced {σ : Type} : HandlerOutcome σ → Bool
  | .produced _ => true
  | .fatalTrap _ => false

/-- Whether a dispatcher event is a `Send` of a reply. -/
def ServerEvent.isSentReply {ρ σ : Type} : ServerEvent ρ σ → Bool
  | .sentReply _ => true
  | _ => false

/-- A tiny concrete serializer over `Nat`, used for the closed concrete
instances: a value freezes to the singleton buffer holding it. -/
def natSerial : Serial Nat :=
  ⟨fun n => [n], fun l => l.headD 0⟩

/-- Mid-run shape of a reduction transaction that is still waiting for
children: `occ` records which child slots are already filled.  Filled slot
`i` holds exactly child `i`'s message, the counter matches, the
accumulator is still the caller's own contribution, and no completion
effect has happened yet. -/
structure MidInv {α : Type} (topo : Topology) (chan : Nat) (v0 d : α)
    (rs : List α) (occ : List Bool) (s : ReduceState α) : Prop where
  hrs : rs.length = topo.children.length
  hocc : occ.length = topo.children.length
  hlen : s.received.length = topo.children.length
  hslot : ∀ i, i < topo.children.length →
    s.received.getD i none =
      (if occ.getD i false then some (mkMsg topo.children rs chan d i) else none)
  hn : s.n_received +
      ((List.range topo.children.length).filter
        (fun i => !occ.getD i false)).length = topo.children.length
  hdata : s.data = v0
  hchan : s.channel = chan
  hsent : s.sent = []
  hunreg : s.unregistered = false
  hsig : s.signaled = false
  hfin : s.finalizeCount = 0

/-- Full invariant of a reachable (non-aborted) reduction transaction
state: slot bookkeeping plus the completion effects tied exactly to the
moment every child has reported. -/
structure ReduceInv {α : Type} (topo : Topology) (chan : Nat)
    (s : ReduceState α) : Prop where
  hlen : s.received.length = topo.children.length
  hcount : s.n_received = countSome s.received
  hpeer : ∀ i, i < topo.children.length → ∀ m : RMessage α,
    s.received.getD i none = some m → m.peer = topo.children.getD i 0
  hchan : s.channel = chan
  hfin : s.finalizeCount =
    (if s.n_received = topo.children.length then 1 else 0)
  hsig : s.signaled = true ↔ s.n_received = topo.children.length
  hunreg : s.unregistered = true ↔ s.n_received = topo.children.length
  hsent : s.sent =
    (if s.n_received = topo.children.length ∧ topo.isRoot = false
     then [(topo.parent, s.data)] else [])

/-! ### Helper lemmas: the child-index search -/

theorem findChildIdxAux_eq_some {children : List Nat} {peer : Nat} :
    ∀ n, ∀ {i : Nat}, findChildIdxAux children peer n = some i →
      i < n ∧ children.getD i 0 = peer
  | 0, i, h => by simp [findChildIdxAux] at h
  | n + 1, i, h => by
    rw [findChildIdxAux] at h
    by_cases hc : children.getD n 0 = peer
    · rw [if_pos hc] at h
      injection h with h
      subst h
      exact ⟨Nat.lt_succ_self n, hc⟩
    · rw [if_neg hc] at h
      have hrec := findChildIdxAux_eq_some n h
      exact ⟨Nat.lt_succ_of_lt hrec.1, hrec.2⟩

theorem findChildIdx_eq_some {children : List Nat} {peer i : Nat}
    (h : findChildIdx children peer = some i) :
    i < children.length ∧ children.getD i 0 = peer :=
  findChildIdxAux_eq_some children.length h

theorem getD_eq_getElem_of_lt {β : Type} {l : List β} {i : Nat} (d : β)
    (h : i < l.length) : l.getD i d = l[i] := by
  simp [List.getD_eq_getElem?_getD, List.getElem?_eq_getElem h]

theorem findChildIdxAux_self {children : List Nat} (hnd : children.Nodup)
    {j : Nat} (hj : j < children.length) :
    ∀ n, j < n → n ≤ children.length →
      findChildIdxAux children (children.getD j 0) n = some j
  | 0, hn, _ => absurd hn (Nat.not_lt_zero j)
  | n + 1, hn, hn2 => by
    rw [findChildIdxAux]
    by_cases he : n = j
    · subst he
      rw [if_pos rfl]
    · have hnlt : n < children.length := Nat.lt_of_succ_le hn2
      have hne : ¬ children.getD n 0 = children.getD j 0 := by
        rw [getD_eq_getElem_of_lt 0 hnlt, getD_eq_getElem_of_lt 0 hj]
        intro hEq
        exact he (hnd.getElem_inj_iff.mp hEq)
      rw [if_neg hne]
      exact findChildIdxAux_self hnd hj n (by omega) (by omega)

theorem findChildIdx_self {children : List Nat} (hnd : children.Nodup)
    {j : Nat} (hj : j < children.length) :
    findChildIdx children (children.getD j 0) = some j :=
  findChildIdxAux_self hnd hj children.length hj Nat.le.refl

/-! ### Helper lemmas: counting filled slots -/

theorem countSome_replicate {α : Type} (n : Nat) :
    countSome (List.replicate n (none : Option α)) = 0 := by
  induction n with
  | zero => rfl
  | succ n ih => simpa [List.replicate, countSome] using ih

theorem countSome_le_length {α : Type} (l : List (Option α)) :
    countSome l ≤ l.length := by
  induction l with
  | nil => exact Nat.le.refl
  | cons a t ih =>
    cases a with
    | none => exact Nat.le_succ_of_le ih
    | some x => simpa [countSome] using ih

theorem countSome_lt_of_getD_none {α : Type} {l : List (Option α)} :
    ∀ {i : Nat}, i < l.length → l.getD i none = none →
      countSome l < l.length := by
  induction l with
  | nil => intro i hi; simp at hi
  | cons a t ih =>
    intro i hi hnone
    cases i with
    | zero =>
      rw [List.getD_cons_zero] at hnone
      subst hnone
      simpa [countSome] using Nat.lt_succ_of_le (countSome_le_length t)
    | succ i =>
      rw [List.getD_cons_succ] at hnone
      have hlt := ih (Nat.lt_of_succ_lt_succ hi) hnone
      cases a with
      | none => simpa [countSome] using Nat.lt_succ_of_lt hlt
      | some x => simpa [countSome] using hlt

theorem countSome_set_some {α : Type} {l : List (Option α)} :
    ∀ {i : Nat}, i < l.length → l.getD i none = none → ∀ (m : α),
      countSome (l.set i (some m)) = countSome l + 1 := by
  induction l with
  | nil => intro i hi; simp at hi
  | cons a t ih =>
    intro i hi hnone m
    cases i with
    | zero =>
      rw [List.getD_cons_zero] at hnone
      subst hnone
      simp [countSome]
    | succ i =>
      rw [List.getD_cons_succ] at hnone
      have := ih (Nat.lt_of_succ_lt_succ hi) hnone m
      cases a with
      | none => simpa [countSome] using this
      | some x => simpa [countSome] using this

theorem getD_isSome_of_countSome_eq_length {α : Type} {l : List (Option α)}
    (h : countSome l = l.length) :
    ∀ {i : Nat}, i < l.length → (l.getD i none).isSome = true := by
  induction l with
  | nil => intro i hi; simp at hi
  | cons a t ih =>
    intro i hi
    cases a with
    | none =>
      have hle := countSome_le_length t
      simp [countSome] at h
      omega
    | some x =>
      cases i with
      | zero => simp
      | succ i =>
        simp only [countSome, List.length_cons, Nat.add_right_cancel_iff] at h
        exact ih h (Nat.lt_of_succ_lt_succ hi)

/-! ### Helper lemmas: generic list facts -/

theorem filter_flip_eq_erase {j : Nat} {p : Nat → Bool} :
    ∀ {l : List Nat}, l.Nodup → p j = true →
      l.filter (fun i => if i = j then false else p i) = (l.filter p).erase j := by
  intro l
  induction l with
  | nil => intro _ _; rfl
  | cons a t ih =>
    intro hnd hpj
    have hmem : a ∉ t := (List.nodup_cons.mp hnd).1
    have hnd' : t.Nodup := (List.nodup_cons.mp hnd).2
    by_cases ha : a = j
    · subst ha
      rw [List.filter_cons_of_neg (by simp)]
      rw [List.filter_cons_of_pos hpj, List.erase_cons_head]
      exact List.filter_congr fun x hx => by
        have : ¬ x = a := fun hxa => hmem (hxa ▸ hx)
        simp [this]
    · have hne : ¬ ((a == j) = true) := by simpa using ha
      by_cases hpa : p a = true
      · rw [List.filter_cons_of_pos (by simp [ha, hpa]),
          List.filter_cons_of_pos hpa, List.erase_cons_tail hne, ih hnd' hpj]
      · rw [List.filter_cons_of_neg (by simp [ha, hpa]),
          List.filter_cons_of_neg hpa, ih hnd' hpj]

theorem eq_map_range_getD {β : Type} (l : List β) (d : β) :
    l = (List.range l.length).map (fun i => l.getD i d) := by
  apply List.ext_getElem
  · simp
  · intro i h1 h2
    simp only [List.getElem_map, List.getElem_range]
    exact (getD_eq_getElem_of_lt d h1).symm

theorem filterMap_eq_map_of_mem {β γ : Type} {l : List β} {f : β → Option γ}
    {g : β → γ} (h : ∀ x ∈ l, f x = some (g x)) :
    l.filterMap f = l.map g := by
  induction l with
  | nil => rfl
  | cons a t ih =>
    rw [List.filterMap_cons, h a (List.mem_cons_self a t),
      ih fun x hx => h x (List.mem_cons_of_mem a hx), List.map_cons]

theorem natNodup_iff {l : List Nat} : natNodup l = true ↔ l.Nodup := by
  induction l with
  | nil => simp [natNodup]
  | cons a t ih =>
    rw [natNodup, List.nodup_cons]
    simp [ih, List.contains, List.elem_iff]

theorem specKidValues_eq_map {α : Type} (red : α → α → α) (ts : List (RTree α)) :
    specKidValues red ts = ts.map (specSubtreeValue red) := by
  induction ts with
  | nil => rfl
  | cons t ts ih => rw [specKidValues, ih, List.map_cons]

theorem getD_set_self {β : Type} {l : List β} {i : Nat} (h : i < l.length)
    (a d : β) : (l.set i a).getD i d = a := by
  simp [List.getD_eq_getElem?_getD, List.getElem?_set_self h]

theorem getD_set_ne {β : Type} {l : List β} {i j : Nat} (h : i ≠ j)
    (a d : β) : (l.set i a).getD j d = l.getD j d := by
  simp [List.getD_eq_getElem?_getD, List.getElem?_set_ne h]

/-! ### The reachable-state invariant of the reduction transaction -/

theorem reduceInv_checkStatus {α : Type} {topo : Topology} {chan : Nat}
    {red : α → α → α} {s : ReduceState α}
    (hlen : s.received.length = topo.children.length)
    (hcount : s.n_received = countSome s.received)
    (hpeer : ∀ i, i < topo.children.length → ∀ m : RMessage α,
      s.received.getD i none = some m → m.peer = topo.children.getD i 0)
    (hchan : s.channel = chan)
    (hsent : s.sent = []) (hunreg : s.unregistered = false)
    (hsig : s.signaled = false) (hfin : s.finalizeCount = 0) :
    ReduceInv topo chan (checkStatus topo red s) := by
  by_cases hc : s.n_received = topo.children.length
  · rw [checkStatus, if_pos hc]
    refine ⟨hlen, hcount, hpeer, hchan, by simp [hc, hfin], by simp [hc],
      by simp [hc], ?_⟩
    cases hr : topo.isRoot <;> simp [hc, hr, hsent]
  · rw [checkStatus, if_neg hc]
    exact ⟨hlen, hcount, hpeer, hchan, by simp [hc, hfin],
      by simp [hc, hsig], by simp [hc, hunreg], by simp [hc, hsent]⟩

theorem reduceInv_init {α : Type} (topo : Topology) (red : α → α → α)
    (chan : Nat) (v0 : α) :
    ReduceInv topo chan (initReduce topo red chan v0) := by
  rw [initReduce]
  apply reduceInv_checkStatus
  · simp
  · simp [countSome_replicate]
  · intro i hi m hm
    rw [List.getD_eq_getElem?_getD, List.getElem?_replicate, if_pos hi] at hm
    simp at hm
  · rfl
  · rfl
  · rfl
  · rfl
  · rfl

theorem reduceInv_step {α : Type} {topo : Topology} {chan : Nat}
    {red : α → α → α} {s s' : ReduceState α} {m : RMessage α}
    (hinv : ReduceInv topo chan s)
    (h : handleMessage topo red s m = .ok s') :
    ReduceInv topo chan s' := by
  rw [handleMessage] at h
  split at h
  · simp at h
  · rename_i i hf
    split at h
    · simp at h
    · rename_i hdup
      injection h with h
      subst h
      obtain ⟨hi, hpeer_i⟩ := findChildIdx_eq_some hf
      have hilen : i < s.received.length := hinv.hlen ▸ hi
      have hnone : s.received.getD i none = none := by
        cases hv : s.received.getD i none with
        | none => rfl
        | some x => rw [hv] at hdup; simp at hdup
      have hlt : s.n_received < topo.children.length := by
        have h1 := countSome_lt_of_getD_none hilen hnone
        have h2 := hinv.hcount
        have h3 := hinv.hlen
        omega
      apply reduceInv_checkStatus
      · simpa using hinv.hlen
      · simpa [countSome_set_some hilen hnone m] using hinv.hcount
      · intro i' hi' m' hm'
        by_cases hii : i = i'
        · subst hii
          rw [getD_set_self hilen] at hm'
          injection hm' with hm'
          subst hm'
          exact hpeer_i.symm
        · rw [getD_set_ne hii] at hm'
          exact hinv.hpeer i' hi' m' hm'
      · exact hinv.hchan
      · rw [hinv.hsent, if_neg (by intro hcon; exact absurd hcon.1 (by omega))]
      · cases hu : s.unregistered with
        | false => rfl
        | true => exact absurd (hinv.hunreg.mp hu) (by omega)
      · cases hu : s.signaled with
        | false => rfl
        | true => exact absurd (hinv.hsig.mp hu) (by omega)
      · rw [hinv.hfin, if_neg (by omega)]

theorem reduceInv_runMsgs {α : Type} {topo : Topology} {chan : Nat}
    {red : α → α → α} :
    ∀ {msgs : List (RMessage α)} {s s' : ReduceState α},
      ReduceInv topo chan s → runMsgs topo red s msgs = .ok s' →
      ReduceInv topo chan s' := by
  intro msgs
  induction msgs with
  | nil =>
    intro s s' hinv h
    rw [runMsgs] at h
    injection h with h
    subst h
    exact hinv
  | cons m ms ih =>
    intro s s' hinv h
    rw [runMsgs] at h
    cases hm : handleMessage topo red s m with
    | ok t =>
      rw [hm] at h
      exact ih (reduceInv_step hinv hm) h
    | fatal k t =>
      rw [hm] at h
      simp at h

theorem reduceInv_run {α : Type} (topo : Topology) (red : α → α → α)
    (chan : Nat) (v0 : α) {msgs : List (RMessage α)} {s : ReduceState α}
    (h : runReduce topo red chan v0 msgs = .ok s) :
    ReduceInv topo chan s :=
  reduceInv_runMsgs (reduceInv_init topo red chan v0) h

/-! ### Arrival-order independence of one node's reduction run -/

theorem foldl_received_eq {α : Type} (red : α → α → α) (rs : List α) (d : α)
    (ps : List Nat) (chan : Nat) (v0 : α) (hlen : rs.length = ps.length) :
    ((List.range ps.length).map (fun i => some (mkMsg ps rs chan d i))).foldl
      (fun acc m? => match m? with | some m => red m.data acc | none => acc) v0
    = rs.foldl (fun acc r => red r acc) v0 := by
  conv_lhs => rw [List.foldl_map]
  conv_rhs => rw [eq_map_range_getD rs d, List.foldl_map]
  rw [hlen]
  rfl

theorem handleMessage_ok {α : Type} {topo : Topology} {red : α → α → α}
    {s : ReduceState α} {m : RMessage α} {i : Nat}
    (hf : findChildIdx topo.children m.peer = some i)
    (hn : s.received.getD i none = none) :
    handleMessage topo red s m =
      .ok (checkStatus topo red
        { s with
          received := s.received.set i (some m)
          n_received := s.n_received + 1 }) := by
  rw [handleMessage]
  split
  · rename_i heq
    rw [hf] at heq
    cases heq
  · rename_i i' heq
    rw [hf] at heq
    injection heq with heq
    subst heq
    rw [if_neg (by rw [hn]; simp)]

theorem runMsgs_midInv {α : Type} {topo : Topology} {red : α → α → α}
    {chan : Nat} {v0 d : α} {rs : List α} (hnd : topo.children.Nodup) :
    ∀ (σ : List Nat) (occ : List Bool) (s : ReduceState α),
      MidInv topo chan v0 d rs occ s →
      σ.Perm ((List.range topo.children.length).filter (fun i => !occ.getD i false)) →
      σ ≠ [] →
      ∃ s', runMsgs topo red s (σ.map (mkMsg topo.children rs chan d)) = .ok s' ∧
        FinalState topo chan (rs.foldl (fun acc r => red r acc) v0) s' := by
  intro σ
  induction σ with
  | nil => intro occ s _ _ hne; exact absurd rfl hne
  | cons j σ2 ih =>
    intro occ s hmid hperm _
    have hjmem : j ∈ (List.range topo.children.length).filter
        (fun i => !occ.getD i false) :=
      hperm.mem_iff.mp (List.mem_cons_self j σ2)
    have hjk : j < topo.children.length :=
      List.mem_range.mp (List.mem_filter.mp hjmem).1
    have hoccj : occ.getD j false = false := by
      have := (List.mem_filter.mp hjmem).2
      simpa using this
    have hjlenocc : j < occ.length := hmid.hocc ▸ hjk
    have hjlenrecv : j < s.received.length := hmid.hlen ▸ hjk
    have hslotj : s.received.getD j none = none := by
      rw [hmid.hslot j hjk, hoccj]
      simp
    have hfind : findChildIdx topo.children
        (mkMsg topo.children rs chan d j).peer = some j :=
      findChildIdx_self hnd hjk
    have hstep : handleMessage topo red s (mkMsg topo.children rs chan d j) =
        .ok (checkStatus topo red
          { s with
            received := s.received.set j (some (mkMsg topo.children rs chan d j))
            n_received := s.n_received + 1 }) :=
      handleMessage_ok hfind hslotj
    have hk := hmid.hn
    have hplen : σ2.length + 1 = ((List.range topo.children.length).filter
        (fun i => !occ.getD i false)).length := by
      simpa using hperm.length_eq
    by_cases hσ2 : σ2 = []
    · -- this was the last missing child: the completion branch fires
      subst hσ2
      have hpend : (List.range topo.children.length).filter
          (fun i => !occ.getD i false) = [j] :=
        (List.singleton_perm.mp hperm).symm
      have hcnt : s.n_received + 1 = topo.children.length := by
        rw [hpend] at hk
        simpa using hk
      have hocc_all : ∀ i, i < topo.children.length → i ≠ j →
          occ.getD i false = true := by
        intro i hik hij
        by_contra hocci
        rw [Bool.not_eq_true] at hocci
        have hmem : i ∈ (List.range topo.children.length).filter
            (fun i => !occ.getD i false) :=
          List.mem_filter.mpr ⟨List.mem_range.mpr hik, by
            show (!occ.getD i false) = true
            rw [hocci]
            rfl⟩
        rw [hpend] at hmem
        exact hij (by simpa using hmem)
      have hrecv : s.received.set j (some (mkMsg topo.children rs chan d j)) =
          (List.range topo.children.length).map
            (fun i => some (mkMsg topo.children rs chan d i)) := by
        apply List.ext_getElem
        · simp [hmid.hlen]
        · intro i h1 h2
          have hik : i < topo.children.length := by
            simpa [hmid.hlen] using h1
          rw [← getD_eq_getElem_of_lt none h1]
          simp only [List.getElem_map, List.getElem_range]
          by_cases hij : i = j
          · subst hij
            rw [getD_set_self hjlenrecv]
          · rw [getD_set_ne (Ne.symm hij), hmid.hslot i hik,
              hocc_all i hik hij]
            simp
      refine ⟨checkStatus topo red
        { s with
          received := s.received.set j (some (mkMsg topo.children rs chan d j))
          n_received := s.n_received + 1 }, ?_, ?_⟩
      · simp only [List.map_cons, List.map_nil, runMsgs, hstep]
      · have hw : (s.received.set j
            (some (mkMsg topo.children rs chan d j))).foldl
              (fun acc m? => match m? with
                | some m => red m.data acc
                | none => acc) s.data
            = rs.foldl (fun acc r => red r acc) v0 := by
          rw [hrecv, hmid.hdata]
          exact foldl_received_eq red rs d topo.children chan v0
            (by rw [hmid.hrs])
        rw [checkStatus, if_pos hcnt]
        refine ⟨hw, rfl, rfl, ?_, hcnt, hmid.hchan, ?_⟩
        · rw [hmid.hfin]
        · cases hr : topo.isRoot with
          | true => simp [hmid.hsent]
          | false => simp [hmid.hsent, hw]
    · -- more children still missing: the completion branch does not fire
      have hσ2len : 0 < σ2.length := List.length_pos.mpr hσ2
      have hn2 : ¬ (s.n_received + 1 = topo.children.length) := by omega
      have hnofire : checkStatus topo red
          { s with
            received := s.received.set j (some (mkMsg topo.children rs chan d j))
            n_received := s.n_received + 1 } =
          { s with
            received := s.received.set j (some (mkMsg topo.children rs chan d j))
            n_received := s.n_received + 1 } := by
        rw [checkStatus, if_neg hn2]
      have hpend' : (List.range topo.children.length).filter
            (fun i => !(occ.set j true).getD i false)
          = ((List.range topo.children.length).filter
              (fun i => !occ.getD i false)).erase j := by
        rw [← filter_flip_eq_erase (List.nodup_range _)
          (by show (!occ.getD j false) = true; rw [hoccj]; rfl)]
        apply List.filter_congr
        intro x hx
        by_cases hxj : x = j
        · show (!(occ.set j true).getD x false) =
            (if x = j then false else !occ.getD x false)
          rw [hxj, getD_set_self hjlenocc, if_pos rfl]
          rfl
        · show (!(occ.set j true).getD x false) =
            (if x = j then false else !occ.getD x false)
          rw [getD_set_ne (Ne.symm hxj), if_neg hxj]
      have hperm2 : σ2.Perm ((List.range topo.children.length).filter
          (fun i => !(occ.set j true).getD i false)) := by
        rw [hpend']
        exact (List.cons_perm_iff_perm_erase.mp hperm).2
      have hmid' : MidInv topo chan v0 d rs (occ.set j true)
          { s with
            received := s.received.set j (some (mkMsg topo.children rs chan d j))
            n_received := s.n_received + 1 } := by
        refine ⟨hmid.hrs, by simp [hmid.hocc], by simp [hmid.hlen],
          ?_, ?_, hmid.hdata, hmid.hchan, hmid.hsent, hmid.hunreg,
          hmid.hsig, hmid.hfin⟩
        · intro i hik
          by_cases hij : i = j
          · subst hij
            rw [getD_set_self hjlenrecv, getD_set_self hjlenocc]
            simp
          · rw [getD_set_ne (Ne.symm hij), getD_set_ne (Ne.symm hij),
              hmid.hslot i hik]
        · rw [hpend', List.length_erase_of_mem hjmem]
          show s.n_received + 1 +
            (((List.range topo.children.length).filter
              (fun i => !occ.getD i false)).length - 1) = topo.children.length
          omega
      obtain ⟨s', hrun, hfin⟩ := ih (occ.set j true) _ hmid' hperm2 hσ2
      refine ⟨s', ?_, hfin⟩
      simp only [List.map_cons, runMsgs, hstep, hnofire]
      exact hrun

theorem getD_replicate_self {β : Type} (n i : Nat) (x : β) :
    (List.replicate n x).getD i x = x := by
  rw [List.getD_eq_getElem?_getD, List.getElem?_replicate]
  split <;> rfl

theorem runReduce_perm {α : Type} (topo : Topology) (red : α → α → α)
    (chan : Nat) (v0 d : α) (rs : List α) (σ : List Nat)
    (hnd : topo.children.Nodup) (hlen : rs.length = topo.children.length)
    (hσ : σ.Perm (List.range topo.children.length)) :
    ∃ s', runReduce topo red chan v0 (σ.map (mkMsg topo.children rs chan d))
        = .ok s' ∧
      FinalState topo chan (rs.foldl (fun acc r => red r acc) v0) s' := by
  by_cases hk : topo.children.length = 0
  · have hσnil : σ = [] := by
      have hl := hσ.length_eq
      rw [List.length_range, hk] at hl
      exact List.length_eq_zero.mp hl
    subst hσnil
    have hrs : rs = [] := List.length_eq_zero.mp (by rw [hlen, hk])
    subst hrs
    refine ⟨initReduce topo red chan v0, by rw [List.map_nil]; rfl, ?_⟩
    rw [initReduce, checkStatus, if_pos hk.symm]
    refine ⟨by simp [hk], rfl, rfl, rfl, hk.symm, rfl, ?_⟩
    cases hr : topo.isRoot <;> simp [hk]
  · have hkpos : 0 < topo.children.length := Nat.pos_of_ne_zero hk
    have hσne : σ ≠ [] := by
      intro hnil
      subst hnil
      have hl := hσ.length_eq
      rw [List.length_range, List.length_nil] at hl
      omega
    have hfilter : (List.range topo.children.length).filter
          (fun i => !(List.replicate topo.children.length false).getD i false)
        = List.range topo.children.length :=
      List.filter_eq_self.mpr (fun a _ => by rw [getD_replicate_self]; rfl)
    have hmid0 : MidInv topo chan v0 d rs
        (List.replicate topo.children.length false)
        { channel := chan
          received := List.replicate topo.children.length none
          n_received := 0
          data := v0
          sent := []
          unregistered := false
          signaled := false
          finalizeCount := 0 } := by
      refine ⟨hlen, by simp, by simp, ?_, ?_, rfl, rfl, rfl, rfl, rfl, rfl⟩
      · intro i hi
        rw [getD_replicate_self, getD_replicate_self]
        rfl
      · rw [hfilter]
        simp
    have hinit_eq : initReduce topo red chan v0 =
        { channel := chan
          received := List.replicate topo.children.length none
          n_received := 0
          data := v0
          sent := []
          unregistered := false
          signaled := false
          finalizeCount := 0 } := by
      rw [initReduce, checkStatus,
        if_neg (show ¬ (0 = topo.children.length) by omega)]
    obtain ⟨s', hrun, hfin⟩ := runMsgs_midInv hnd σ
      (List.replicate topo.children.length false) _ hmid0
      (by rw [hfilter]; exact hσ) hσne
    refine ⟨s', ?_, hfin⟩
    rw [runReduce, hinit_eq]
    exact hrun

/-! ### Whole-tree reduction -/

theorem RTree.inductionOn {α : Type} {motive : RTree α → Prop}
    (step : ∀ (pid : Nat) (v : α) (ord : List Nat) (kids : List (RTree α)),
      (∀ k ∈ kids, motive k) → motive (RTree.node pid v ord kids)) :
    ∀ t, motive t
  | .node p v o kids =>
    step p v o kids (fun k hk =>
      have : sizeOf k < sizeOf (RTree.node p v o kids) := by
        have := List.sizeOf_lt_of_mem hk
        simp only [RTree.node.sizeOf_spec]
        omega
      RTree.inductionOn step k)
termination_by t => sizeOf t

theorem RTree.validbAll_iff {α : Type} (ts : List (RTree α)) :
    RTree.validbAll ts = true ↔ ∀ t ∈ ts, t.validb = true := by
  induction ts with
  | nil => simp [RTree.validbAll]
  | cons t ts ih =>
    rw [RTree.validbAll, Bool.and_eq_true, ih]
    simp

theorem runKids_eq {α : Type} (red : α → α → α) (chan : Nat)
    (kids : List (RTree α)) (pp : Nat)
    (hk : ∀ k ∈ kids, ∃ s, runTree red chan k pp false = some s ∧
      s.data = specSubtreeValue red k ∧ s.signaled = true ∧
      s.sent = [(pp, specSubtreeValue red k)]) :
    runKids red chan kids pp =
      some (kids.map (fun k =>
        (⟨k.pid, chan, specSubtreeValue red k⟩ : RMessage α))) := by
  induction kids with
  | nil => rfl
  | cons t ts ih =>
    obtain ⟨s, hrun, _, _, hsent⟩ := hk t (List.mem_cons_self t ts)
    have hts := ih (fun k hkk => hk k (List.mem_cons_of_mem t hkk))
    rw [runKids, hrun, hts]
    simp [hsent]

theorem runTree_spec {α : Type} (red : α → α → α) (chan : Nat) :
    ∀ (t : RTree α), t.validb = true → ∀ (pp : Nat) (isRoot : Bool),
      ∃ s, runTree red chan t pp isRoot = some s ∧
        s.data = specSubtreeValue red t ∧ s.signaled = true ∧
        s.sent = (if isRoot then [] else [(pp, specSubtreeValue red t)]) := by
  intro t
  induction t using RTree.inductionOn with
  | step p v ord kids ih =>
    intro hv pp isRoot
    rw [RTree.validb, Bool.and_eq_true, Bool.and_eq_true] at hv
    obtain ⟨⟨hnd0, hperm0⟩, hall⟩ := hv
    have hnd : (kids.map RTree.pid).Nodup := natNodup_iff.mp hnd0
    have hord : ord.Perm (List.range kids.length) := List.isPerm_iff.mp hperm0
    have hkids : ∀ k ∈ kids, ∃ s, runTree red chan k p false = some s ∧
        s.data = specSubtreeValue red k ∧ s.signaled = true ∧
        s.sent = [(p, specSubtreeValue red k)] := by
      intro k hkk
      obtain ⟨s, h1, h2, h3, h4⟩ :=
        ih k hkk ((RTree.validbAll_iff kids).mp hall k hkk) p false
      exact ⟨s, h1, h2, h3, by rw [h4]; rfl⟩
    have hrunKids := runKids_eq red chan kids p hkids
    have harr : ord.filterMap (fun j => (kids.map (fun k =>
          (⟨k.pid, chan, specSubtreeValue red k⟩ : RMessage α))).get? j)
        = ord.map (mkMsg (kids.map RTree.pid)
            (kids.map (specSubtreeValue red)) chan v) := by
      apply filterMap_eq_map_of_mem
      intro j hj
      have hjk : j < kids.length := List.mem_range.mp (hord.mem_iff.mp hj)
      have h1 : (kids.map RTree.pid).getD j 0 = (kids[j]).pid := by
        rw [getD_eq_getElem_of_lt 0 (by simpa using hjk), List.getElem_map]
      have h2 : (kids.map (specSubtreeValue red)).getD j v
          = specSubtreeValue red kids[j] := by
        rw [getD_eq_getElem_of_lt v (by simpa using hjk), List.getElem_map]
      rw [List.get?_eq_getElem?, List.getElem?_map, List.getElem?_eq_getElem hjk,
        mkMsg, h1, h2]
      rfl
    obtain ⟨s, hrun, hfin⟩ := runReduce_perm ⟨isRoot, pp, kids.map RTree.pid⟩
      red chan v v (kids.map (specSubtreeValue red)) ord hnd (by simp)
      (by simpa using hord)
    obtain ⟨hdata, hsig, hunreg, hfc, hnr, hchan, hsent⟩ := hfin
    have hrun' : runMsgs ⟨isRoot, pp, kids.map RTree.pid⟩ red
        (initReduce ⟨isRoot, pp, kids.map RTree.pid⟩ red chan v)
        (ord.map (mkMsg (kids.map RTree.pid)
          (kids.map (specSubtreeValue red)) chan v)) = .ok s := hrun
    have hspec : specSubtreeValue red (RTree.node p v ord kids)
        = (kids.map (specSubtreeValue red)).foldl (fun acc r => red r acc) v := by
      rw [specSubtreeValue, specKidValues_eq_map]
    refine ⟨s, ?_, ?_, hsig, ?_⟩
    · rw [runTree, hrunKids]
      simp only [harr, hrun', hsig]
      rfl
    · rw [hspec]
      exact hdata
    · rw [hsent, hspec]

theorem reduceInv_c10 {α : Type} {topo : Topology} {chan : Nat}
    {s : ReduceState α} (hinv : ReduceInv topo chan s) :
    s.n_received = countSome s.received ∧
    (∀ i, i < topo.children.length → ∀ mm : RMessage α,
      s.received.getD i none = some mm → mm.peer = topo.children.getD i 0) ∧
    (s.finalizeCount = 1 ↔ s.n_received = topo.children.length) := by
  refine ⟨hinv.hcount, hinv.hpeer, ?_⟩
  rw [hinv.hfin]
  by_cases hc : s.n_received = topo.children.length <;> simp [hc]

/-! ### The claims -/

/-- C1: for every reduction over a spanning tree of processes, with any
associative (possibly non-commutative) reductor and every per-node order in
which child messages arrive (encoded in the tree's `ord` fields, quantified
by `validb`), each node's post-reduction accumulator equals the fixed
deterministic combination of its subtree: own contribution first, then each
child's combined subtree value applied as `combine(childValue, acc)` in
increasing child-index order — `specSubtreeValue`, the spec-side value.
Instantiated at the whole tree this gives the root's accumulator; since `t`
ranges over all subtrees it also gives every non-root node's accumulator. -/
theorem reduce_spanning_tree_correct {α : Type} (red : α → α → α)
    (hassoc : ∀ a b c, red (red a b) c = red a (red b c))
    (chan : Nat) (t : RTree α) (hv : t.validb = true)
    (pp : Nat) (isRoot : Bool) :
    (runTree red chan t pp isRoot).map ReduceState.data
      = some (specSubtreeValue red t) := by
  obtain ⟨s, hrun, hdata, _, _⟩ := runTree_spec red chan t hv pp isRoot
  rw [hrun]
  simp [hdata]

/-- Witness for C1: a 3-process tree (root 0 with children 1 and 2) whose
root receives the child messages in reversed arrival order. -/
theorem reduce_spanning_tree_correct_witness :
    ((RTree.node 0 (10 : Int) [1, 0]
        [RTree.node 1 3 [] [], RTree.node 2 4 [] []]).validb = true) ∧
    (runTree (fun a b : Int => a + b) 7
        (RTree.node 0 (10 : Int) [1, 0]
          [RTree.node 1 3 [] [], RTree.node 2 4 [] []]) 99 true).map
        ReduceState.data
      = some (specSubtreeValue (fun a b : Int => a + b)
          (RTree.node 0 (10 : Int) [1, 0]
            [RTree.node 1 3 [] [], RTree.node 2 4 [] []])) :=
  ⟨by decide, reduce_spanning_tree_correct (fun a b : Int => a + b)
    (fun a b c => Int.add_assoc a b c) 7
    (RTree.node 0 (10 : Int) [1, 0]
      [RTree.node 1 3 [] [], RTree.node 2 4 [] []]) (by decide) 99 true⟩

/-- C2: the concrete 3-process reduction — root (peer 0) with children
peers [1, 2], reductor `combine(incoming, acc) = incoming - acc`,
contributions root = 10, A = 3, B = 4 — yields root accumulator 11, and
does so for either arrival order of the two child messages. -/
theorem reduce_concrete_three_process :
    (runReduce ⟨true, 0, [1, 2]⟩ (fun incoming acc => incoming - acc) 7
      (10 : Int) [⟨1, 7, 3⟩, ⟨2, 7, 4⟩]).dataOf = some 11 ∧
    (runReduce ⟨true, 0, [1, 2]⟩ (fun incoming acc => incoming - acc) 7
      (10 : Int) [⟨2, 7, 4⟩, ⟨1, 7, 3⟩]).dataOf = some 11 := by
  decide

/-- C3: on a process whose topology reports zero children, `Init` completes
the reduction immediately (the caller is signalled during initialization,
before any message), the contribution is returned unchanged — the reductor
is never applied, whatever it is — and, at the root, no upward message is
sent. -/
theorem reduce_no_children {α : Type} (topo : Topology) (red : α → α → α)
    (chan : Nat) (v0 : α) (h : topo.children = []) :
    (initReduce topo red chan v0).data = v0 ∧
    (initReduce topo red chan v0).signaled = true ∧
    (initReduce topo red chan v0).unregistered = true ∧
    (initReduce topo red chan v0).finalizeCount = 1 ∧
    (topo.isRoot = true → (initReduce topo red chan v0).sent = []) := by
  refine ⟨?_, ?_, ?_, ?_, ?_⟩ <;> simp [initReduce, checkStatus, h]

/-- Witness for C3 at a concrete root topology with no children. -/
theorem reduce_no_children_witness :
    ((⟨true, 0, []⟩ : Topology).children = []) ∧
    ((initReduce ⟨true, 0, []⟩ (fun a b : Int => a - b) 7 10).data = 10 ∧
     (initReduce ⟨true, 0, []⟩ (fun a b : Int => a - b) 7 10).signaled = true ∧
     (initReduce ⟨true, 0, []⟩ (fun a b : Int => a - b) 7 10).unregistered = true ∧
     (initReduce ⟨true, 0, []⟩ (fun a b : Int => a - b) 7 10).finalizeCount = 1 ∧
     ((⟨true, 0, []⟩ : Topology).isRoot = true →
      (initReduce ⟨true, 0, []⟩ (fun a b : Int => a - b) 7 10).sent = [])) :=
  ⟨rfl, reduce_no_children ⟨true, 0, []⟩ (fun a b : Int => a - b) 7 10 rfl⟩

/-- C4: a message whose sender is not in the child list, or from a child
whose slot is already filled, makes `HandleMessage` abort the process
(`FATAL`) with a diagnostic naming the offending peer and the channel; the
aborting result carries the state `s` unchanged — no accumulator or slot
mutation happened on that path. -/
theorem reduce_fatal_paths {α : Type} (topo : Topology) (red : α → α → α)
    (s : ReduceState α) (m : RMessage α) :
    (findChildIdx topo.children m.peer = none →
      handleMessage topo red s m = .fatal (.unexpectedPeer m.peer s.channel) s) ∧
    (∀ i, findChildIdx topo.children m.peer = some i →
      (s.received.getD i none).isSome = true →
      handleMessage topo red s m
        = .fatal (.duplicateMessage m.peer s.channel) s) := by
  constructor
  · intro h
    rw [handleMessage, h]
  · intro i h hdup
    rw [handleMessage]
    split
    · rename_i heq
      rw [h] at heq
      cases heq
    · rename_i i' heq
      rw [h] at heq
      injection heq with heq
      subst heq
      rw [if_pos hdup]

/-- Witness for C4: on a state with child slot 0 already holding peer 1's
message, a message from unknown peer 5 and a duplicate from peer 1 both
abort, leaving the state untouched. -/
theorem reduce_fatal_paths_witness :
    (handleMessage (⟨true, 0, [1, 2]⟩ : Topology) (fun a b : Int => a - b)
        ⟨7, [some ⟨1, 7, 3⟩, none], 1, 10, [], false, false, 0⟩ ⟨5, 7, 8⟩
      = .fatal (.unexpectedPeer 5 7)
          ⟨7, [some ⟨1, 7, 3⟩, none], 1, 10, [], false, false, 0⟩) ∧
    (handleMessage (⟨true, 0, [1, 2]⟩ : Topology) (fun a b : Int => a - b)
        ⟨7, [some ⟨1, 7, 3⟩, none], 1, 10, [], false, false, 0⟩ ⟨1, 7, 4⟩
      = .fatal (.duplicateMessage 1 7)
          ⟨7, [some ⟨1, 7, 3⟩, none], 1, 10, [], false, false, 0⟩) :=
  ⟨(reduce_fatal_paths ⟨true, 0, [1, 2]⟩ (fun a b : Int => a - b)
      ⟨7, [some ⟨1, 7, 3⟩, none], 1, 10, [], false, false, 0⟩ ⟨5, 7, 8⟩).1
    (by decide),
   (reduce_fatal_paths ⟨true, 0, [1, 2]⟩ (fun a b : Int => a - b)
      ⟨7, [some ⟨1, 7, 3⟩, none], 1, 10, [], false, false, 0⟩ ⟨1, 7, 4⟩).2 0
    (by decide) (by decide)⟩

/-- C5: in any non-aborted reduction run, the `CheckStatus_` completion
branch (Finalize) runs at most once, and exactly once precisely when every
child slot is filled; at that point a non-root process has sent exactly one
upward message to its parent carrying the combined accumulator while the
root has sent nothing, the channel is unregistered and the waiting caller
is signalled — and before that point nothing was sent, unregistered or
signalled. -/
theorem reduce_finalize_once {α : Type} (topo : Topology) (red : α → α → α)
    (chan : Nat) (v0 : α) (msgs : List (RMessage α)) (s : ReduceState α)
    (h : runReduce topo red chan v0 msgs = .ok s) :
    s.finalizeCount ≤ 1 ∧
    (s.finalizeCount = 1 ↔ countSome s.received = topo.children.length) ∧
    (s.n_received = topo.children.length →
      s.sent = (if topo.isRoot then [] else [(topo.parent, s.data)]) ∧
      s.unregistered = true ∧ s.signaled = true) ∧
    (s.n_received ≠ topo.children.length →
      s.sent = [] ∧ s.unregistered = false ∧ s.signaled = false) := by
  have hinv := reduceInv_run topo red chan v0 h
  refine ⟨?_, ?_, ?_, ?_⟩
  · rw [hinv.hfin]
    split <;> omega
  · rw [hinv.hfin, ← hinv.hcount]
    by_cases hc : s.n_received = topo.children.length <;> simp [hc]
  · intro hc
    refine ⟨?_, hinv.hunreg.mpr hc, hinv.hsig.mpr hc⟩
    rw [hinv.hsent]
    cases hr : topo.isRoot <;> simp [hr, hc]
  · intro hc
    refine ⟨by rw [hinv.hsent]; simp [hc], ?_, ?_⟩
    · cases hu : s.unregistered with
      | false => rfl
      | true => exact absurd (hinv.hunreg.mp hu) hc
    · cases hu : s.signaled with
      | false => rfl
      | true => exact absurd (hinv.hsig.mp hu) hc

/-- Witness for C5: the completed 3-process reduction on a non-root node
(parent peer 9): exactly one upward message `(9, 11)`, unregistered and
signalled. -/
theorem reduce_finalize_once_witness :
    (runReduce (⟨false, 9, [1, 2]⟩ : Topology) (fun a b : Int => a - b) 7 10
        [⟨1, 7, 3⟩, ⟨2, 7, 4⟩]
      = .ok ⟨7, [some ⟨1, 7, 3⟩, some ⟨2, 7, 4⟩], 2, 11, [(9, 11)],
          true, true, 1⟩) ∧
    ((⟨7, [some ⟨1, 7, 3⟩, some ⟨2, 7, 4⟩], 2, 11, [(9, 11)], true, true, 1⟩
        : ReduceState Int).finalizeCount ≤ 1 ∧
     ((⟨7, [some ⟨1, 7, 3⟩, some ⟨2, 7, 4⟩], 2, 11, [(9, 11)], true, true, 1⟩
        : ReduceState Int).finalizeCount = 1 ↔
      countSome (⟨7, [some ⟨1, 7, 3⟩, some ⟨2, 7, 4⟩], 2, 11, [(9, 11)],
        true, true, 1⟩ : ReduceState Int).received
        = (⟨false, 9, [1, 2]⟩ : Topology).children.length) ∧
     ((⟨7, [some ⟨1, 7, 3⟩, some ⟨2, 7, 4⟩], 2, 11, [(9, 11)], true, true, 1⟩
        : ReduceState Int).n_received
        = (⟨false, 9, [1, 2]⟩ : Topology).children.length →
      (⟨7, [some ⟨1, 7, 3⟩, some ⟨2, 7, 4⟩], 2, 11, [(9, 11)], true, true, 1⟩
        : ReduceState Int).sent
        = (if (⟨false, 9, [1, 2]⟩ : Topology).isRoot then []
           else [((⟨false, 9, [1, 2]⟩ : Topology).parent,
             (⟨7, [some ⟨1, 7, 3⟩, some ⟨2, 7, 4⟩], 2, 11, [(9, 11)],
               true, true, 1⟩ : ReduceState Int).data)]) ∧
      (⟨7, [some ⟨1, 7, 3⟩, some ⟨2, 7, 4⟩], 2, 11, [(9, 11)], true, true, 1⟩
        : ReduceState Int).unregistered = true ∧
      (⟨7, [some ⟨1, 7, 3⟩, some ⟨2, 7, 4⟩], 2, 11, [(9, 11)], true, true, 1⟩
        : ReduceState Int).signaled = true) ∧
     ((⟨7, [some ⟨1, 7, 3⟩, some ⟨2, 7, 4⟩], 2, 11, [(9, 11)], true, true, 1⟩
        : ReduceState Int).n_received
        ≠ (⟨false, 9, [1, 2]⟩ : Topology).children.length →
      (⟨7, [some ⟨1, 7, 3⟩, some ⟨2, 7, 4⟩], 2, 11, [(9, 11)], true, true, 1⟩
        : ReduceState Int).sent = [] ∧
      (⟨7, [some ⟨1, 7, 3⟩, some ⟨2, 7, 4⟩], 2, 11, [(9, 11)], true, true, 1⟩
        : ReduceState Int).unregistered = false ∧
      (⟨7, [some ⟨1, 7, 3⟩, some ⟨2, 7, 4⟩], 2, 11, [(9, 11)], true, true, 1⟩
        : ReduceState Int).signaled = false)) :=
  ⟨rfl, reduce_finalize_once ⟨false, 9, [1, 2]⟩ (fun a b : Int => a - b)
    7 10 [⟨1, 7, 3⟩, ⟨2, 7, 4⟩] _ rfl⟩

/-- C6: the blocking client call builds a request message addressed to the
target peer and sized to the serialized request, records "no response yet"
(and while no response is recorded the call cannot return — the wait is
modelled as `rpcRequestResult` yielding `none`, with no timeout path in the
code), and once the dispatcher's reply is delivered it returns a thawed
value structurally equal to what the registered handler produced for that
exact request, assuming the serializer round-trips. -/
theorem rpc_call_roundtrip {ρ σ : Type} (serReq : Serial ρ) (serResp : Serial σ)
    (handler : ρ → σ → σ) (resp0 : σ) (chan peer : Nat) (req : ρ)
    (hreq : serReq.thaw (serReq.freeze req) = req)
    (hresp : ∀ r, serResp.thaw (serResp.freeze r) = r) :
    (rpcDoitStart serReq chan peer req).2.payload.length
      = (serReq.freeze req).length ∧
    (rpcDoitStart serReq chan peer req).2.peer = peer ∧
    (rpcDoitStart serReq chan peer req).1.response = none ∧
    rpcRequestResult serResp (rpcDoitStart serReq chan peer req).1 = none ∧
    rpcRequestResult serResp
      (rpcClientHandleMessage (rpcDoitStart serReq chan peer req).1
        (remoteObjectReply serReq serResp handler resp0
          (rpcDoitStart serReq chan peer req).2))
      = some (handler req resp0) := by
  refine ⟨rfl, rfl, rfl, rfl, ?_⟩
  simp [rpcDoitStart, rpcRequestMessage, remoteObjectReply,
    rpcClientHandleMessage, rpcRequestResult, hreq, hresp]

/-- Witness for C6 with the concrete singleton-buffer serializer over `Nat`,
handler `fun r s => r * 2 + s`, request 4. -/
theorem rpc_call_roundtrip_witness :
    (natSerial.thaw (natSerial.freeze 4) = 4) ∧
    ((rpcDoitStart natSerial 5 3 4).2.payload.length
        = (natSerial.freeze 4).length ∧
     (rpcDoitStart natSerial 5 3 4).2.peer = 3 ∧
     (rpcDoitStart natSerial 5 3 4).1.response = none ∧
     rpcRequestResult natSerial (rpcDoitStart natSerial 5 3 4).1 = none ∧
     rpcRequestResult natSerial
       (rpcClientHandleMessage (rpcDoitStart natSerial 5 3 4).1
         (remoteObjectReply natSerial natSerial (fun r s => r * 2 + s) 0
           (rpcDoitStart natSerial 5 3 4).2))
       = some ((fun r s => r * 2 + s) 4 0)) :=
  ⟨rfl, rpc_call_roundtrip natSerial natSerial (fun r s => r * 2 + s) 0 5 3 4
    rfl (fun r => rfl)⟩

/-- C7 counterexample: at a concrete request the dispatcher's actual event
trace differs from the trace the claim describes — the request message is
not freed right after thawing (it is freed only after the handler has run
and the reply message has been allocated). -/
theorem dispatcher_trace_counterexample :
    remoteObjectTrace natSerial natSerial (fun r s => r + s) 0 ⟨3, 5, [4]⟩ ≠
      claimedServerTrace natSerial natSerial (fun r s => r + s) 0 ⟨3, 5, [4]⟩ := by
  intro h
  have h1 := congrArg (fun l => l.get? 1) h
  simp [remoteObjectTrace, claimedServerTrace] at h1

/-- C7 (amended): the dispatcher performs exactly these steps in order —
thaw the payload, construct a default-initialized response, invoke the user
handler with (request, response), allocate the reply sized to the frozen
response and addressed back to the sender, free the request message,
serialize the response into the reply, send exactly one reply, mark the
transaction done, destroy the per-request transaction.  (The claim's only
error is the position of the free: it happens after the handler runs, not
right after thawing.) -/
theorem dispatcher_step_order {ρ σ : Type} (serReq : Serial ρ)
    (serResp : Serial σ) (handler : ρ → σ → σ) (resp0 : σ) (m : RpcMessage) :
    remoteObjectTrace serReq serResp handler resp0 m =
      [ .thawedRequest (serReq.thaw m.payload),
        .constructedResponse resp0,
        .invokedHandler (serReq.thaw m.payload)
          (handler (serReq.thaw m.payload) resp0),
        .createdReply m.peer
          (serResp.freeze (handler (serReq.thaw m.payload) resp0)).length,
        .freedRequest,
        .frozeResponse (serResp.freeze (handler (serReq.thaw m.payload) resp0)),
        .sentReply (remoteObjectReply serReq serResp handler resp0 m),
        .calledDone,
        .destroyedSelf ] ∧
    ((remoteObjectTrace serReq serResp handler resp0 m).filter
        ServerEvent.isSentReply).length = 1 ∧
    (remoteObjectReply serReq serResp handler resp0 m).peer = m.peer := by
  refine ⟨rfl, ?_, rfl⟩
  simp [remoteObjectTrace, ServerEvent.isSentReply]

/-- C8: the unspecialized `HandleRequest` is a pure programming-error trap:
it aborts with its diagnostic on every input and never produces a
response. -/
theorem default_handler_traps {ρ σ : Type} (req : ρ) (resp0 : σ) :
    defaultHandleRequest ρ σ req resp0
      = HandlerOutcome.fatalTrap "Virtuality sucks" ∧
    (defaultHandleRequest ρ σ req resp0).isProduced = false :=
  ⟨rfl, rfl⟩

/-- C9: the client-call transaction has no guard against a second delivery:
`HandleMessage` on an already-completed transaction neither aborts (there is
no fatal path at all) nor ignores the message — it unconditionally records
the new message, overwriting the previous response, and signals again. -/
theorem client_overwrites_second_response (s : RpcClientState)
    (prev m : RpcMessage) (hprev : s.response = some prev) (hne : m ≠ prev) :
    (rpcClientHandleMessage s m).response = some m ∧
    (rpcClientHandleMessage s m).response ≠ some prev ∧
    (rpcClientHandleMessage s m).doneCalled = true ∧
    (rpcClientHandleMessage s m).signalCount = s.signalCount + 1 := by
  refine ⟨rfl, ?_, rfl, rfl⟩
  simp [rpcClientHandleMessage, hne]

/-- Witness for C9: a completed transaction holding reply `⟨1, 5, [2]⟩`
that is then handed the different message `⟨2, 5, [9]⟩`. -/
theorem client_overwrites_second_response_witness :
    ((⟨5, some ⟨1, 5, [2]⟩, true, 1⟩ : RpcClientState).response
      = some ⟨1, 5, [2]⟩) ∧
    ((⟨2, 5, [9]⟩ : RpcMessage) ≠ ⟨1, 5, [2]⟩) ∧
    ((rpcClientHandleMessage ⟨5, some ⟨1, 5, [2]⟩, true, 1⟩
        ⟨2, 5, [9]⟩).response = some ⟨2, 5, [9]⟩ ∧
     (rpcClientHandleMessage ⟨5, some ⟨1, 5, [2]⟩, true, 1⟩
        ⟨2, 5, [9]⟩).response ≠ some ⟨1, 5, [2]⟩ ∧
     (rpcClientHandleMessage ⟨5, some ⟨1, 5, [2]⟩, true, 1⟩
        ⟨2, 5, [9]⟩).doneCalled = true ∧
     (rpcClientHandleMessage ⟨5, some ⟨1, 5, [2]⟩, true, 1⟩
        ⟨2, 5, [9]⟩).signalCount
       = (⟨5, some ⟨1, 5, [2]⟩, true, 1⟩ : RpcClientState).signalCount + 1) :=
  ⟨rfl, by simp,
   client_overwrites_second_response ⟨5, some ⟨1, 5, [2]⟩, true, 1⟩
     ⟨1, 5, [2]⟩ ⟨2, 5, [9]⟩ rfl (by simp)⟩

/-- C10: the reduction transaction's bookkeeping invariant — `n_received_`
equals the number of non-null entries of `received_`, every non-null slot
`i` holds a message whose sender is `child(i)`, and the finalize branch has
run exactly when `n_received_` equals the child count — is established by
`Init` and preserved by every `HandleMessage` call that does not abort
(stated for every reachable state, i.e. every non-aborted run from
`Init`). -/
theorem reduce_transaction_invariant {α : Type} (topo : Topology)
    (red : α → α → α) (chan : Nat) (v0 : α) :
    ((initReduce topo red chan v0).n_received
        = countSome (initReduce topo red chan v0).received ∧
     (∀ i, i < topo.children.length → ∀ mm : RMessage α,
        (initReduce topo red chan v0).received.getD i none = some mm →
        mm.peer = topo.children.getD i 0) ∧
     ((initReduce topo red chan v0).finalizeCount = 1 ↔
      (initReduce topo red chan v0).n_received = topo.children.length)) ∧
    (∀ (msgs : List (RMessage α)) (s : ReduceState α) (m : RMessage α)
        (s' : ReduceState α),
      runReduce topo red chan v0 msgs = .ok s →
      handleMessage topo red s m = .ok s' →
      (s'.n_received = countSome s'.received ∧
       (∀ i, i < topo.children.length → ∀ mm : RMessage α,
          s'.received.getD i none = some mm →
          mm.peer = topo.children.getD i 0) ∧
       (s'.finalizeCount = 1 ↔ s'.n_received = topo.children.length))) :=
  ⟨reduceInv_c10 (reduceInv_init topo red chan v0),
   fun _ _ _ _ hrun hstep =>
     reduceInv_c10 (reduceInv_step (reduceInv_run topo red chan v0 hrun) hstep)⟩

/-- Witness for C10: the invariant after `Init` on the concrete 3-process
topology, and after the second child's message is delivered to the state
reached by delivering the first. -/
theorem reduce_transaction_invariant_witness :
    (((initReduce (⟨true, 0, [1, 2]⟩ : Topology) (fun a b : Int => a - b)
          7 10).n_received
        = countSome (initReduce (⟨true, 0, [1, 2]⟩ : Topology)
            (fun a b : Int => a - b) 7 10).received ∧
      (∀ i, i < (⟨true, 0, [1, 2]⟩ : Topology).children.length →
        ∀ mm : RMessage Int,
        (initReduce (⟨true, 0, [1, 2]⟩ : Topology) (fun a b : Int => a - b)
            7 10).received.getD i none = some mm →
        mm.peer = (⟨true, 0, [1, 2]⟩ : Topology).children.getD i 0) ∧
      ((initReduce (⟨true, 0, [1, 2]⟩ : Topology) (fun a b : Int => a - b)
            7 10).finalizeCount = 1 ↔
       (initReduce (⟨true, 0, [1, 2]⟩ : Topology) (fun a b : Int => a - b)
            7 10).n_received
         = (⟨true, 0, [1, 2]⟩ : Topology).children.length))) ∧
    (((⟨7, [some ⟨1, 7, 3⟩, some ⟨2, 7, 4⟩], 2, 11, [], true, true, 1⟩
          : ReduceState Int).n_received
        = countSome (⟨7, [some ⟨1, 7, 3⟩, some ⟨2, 7, 4⟩], 2, 11, [],
            true, true, 1⟩ : ReduceState Int).received ∧
      (∀ i, i < (⟨true, 0, [1, 2]⟩ : Topology).children.length →
        ∀ mm : RMessage Int,
        (⟨7, [some ⟨1, 7, 3⟩, some ⟨2, 7, 4⟩], 2, 11, [], true, true, 1⟩
            : ReduceState Int).received.getD i none = some mm →
        mm.peer = (⟨true, 0, [1, 2]⟩ : Topology).children.getD i 0) ∧
      ((⟨7, [some ⟨1, 7, 3⟩, some ⟨2, 7, 4⟩], 2, 11, [], true, true, 1⟩
          : ReduceState Int).finalizeCount = 1 ↔
       (⟨7, [some ⟨1, 7, 3⟩, some ⟨2, 7, 4⟩], 2, 11, [], true, true, 1⟩
          : ReduceState Int).n_received
         = (⟨true, 0, [1, 2]⟩ : Topology).children.length))) :=
  ⟨(reduce_transaction_invariant ⟨true, 0, [1, 2]⟩ (fun a b : Int => a - b)
      7 10).1,
   (reduce_transaction_invariant ⟨true, 0, [1, 2]⟩ (fun a b : Int => a - b)
      7 10).2 [⟨1, 7, 3⟩]
     ⟨7, [some ⟨1, 7, 3⟩, none], 1, 10, [], false, false, 0⟩ ⟨2, 7, 4⟩
     ⟨7, [some ⟨1, 7, 3⟩, some ⟨2, 7, 4⟩], 2, 11, [], true, true, 1⟩
     rfl rfl⟩

end RpcVerify
